import Mathlib

/-!
Shallow embedding of the covid-19 data pipeline (src/pipeline.py, src/utils.py).

Dates are modelled as natural numbers (`yyyymmdd` literals for concrete JHU
inputs, abstract day numbers for the per-place ECDC series: pandas daily
resampling steps days one at a time, which we model as successor on `Nat`).
Counts are integers, as in the CSV feeds.  Missing values (`NaN`) are
modelled with `Option`.
-/

namespace Covid

/-- One per-place row of the ECDC series, after grouping by
`countries_and_territories`: a report date and the two metric columns
(`cases`, `deaths`).  The pandas operations in `ECDC.clean`
(pipeline.py lines 71-143) all act group-wise, so the per-place series
is the faithful unit of modelling. -/
structure ERow where
  date : Nat
  cases : Int
  deaths : Int
deriving DecidableEq, Repr

/-- pipeline.py lines 90-92: `df['date'] = groupby(...)['date'].shift()`
then drop rows with a null date.  Within a place, row `i` receives the
date of row `i-1` and the first row (whose shifted date is null) is
dropped. -/
def tzShift : List ERow → List ERow
  | a :: b :: t => { b with date := a.date } :: tzShift (b :: t)
  | _ => []

/-- pipeline.py lines 94-100: `groupby(...)[['cases','deaths']].cumsum()`.
The accumulators carry the running totals. -/
def cumsumRows (c d : Int) : List ERow → List ERow
  | [] => []
  | r :: rest =>
      { r with cases := c + r.cases, deaths := d + r.deaths }
        :: cumsumRows (c + r.cases) (d + r.deaths) rest

/-- pipeline.py lines 102-129: per place, compute shifted previous values,
take the last row of the group, and drop it exactly when its `cases` and
`deaths` both equal the previous row's (pandas `NaN == x` is false, so a
one-row group is never dropped). -/
def dropStaleTail (l : List ERow) : List ERow :=
  match l.getLast?, l.dropLast.getLast? with
  | some r, some p =>
      if r.cases = p.cases ∧ r.deaths = p.deaths then l.dropLast else l
  | _, _ => l

/-- The forward-filled value at day `d`: the metrics of the last row whose
date is at most `d` (default `v`), carrying `d` as the row's date.  This is
the pandas `ffill` semantics for a date-sorted series. -/
def valAt (v : ERow) (d : Nat) : List ERow → ERow
  | [] => { v with date := d }
  | r :: rest => if r.date ≤ d then valAt r d rest else { v with date := d }

/-- pipeline.py lines 131-141: `.resample('D').ffill().interpolate()` per
place.  For a date-sorted group this reindexes to every calendar day from
the first to the last observed date and forward-fills the metric columns
(`interpolate` is a no-op here since `ffill` leaves no interior nulls and
the metric columns of the source are non-null integers). -/
def resampleFfill (l : List ERow) : List ERow :=
  match l with
  | [] => []
  | r0 :: rest =>
      let dn := (((r0 :: rest).getLast?).map ERow.date).getD r0.date
      (List.range (dn - r0.date + 1)).map
        (fun i => valAt r0 (r0.date + i) (r0 :: rest))

/-- The whole of `ECDC.clean` for one place's date-sorted series:
time-zone shift, cumulative summation, stale-tail drop, daily resampling
(pipeline.py lines 90-141, in source order). -/
def ecdcCleanPlace (l : List ERow) : List ERow :=
  resampleFfill (dropStaleTail (cumsumRows 0 0 (tzShift l)))

/-- Both metrics of `a` are at most those of `b`: the per-place
monotonicity order on rows. -/
def rowLE (a b : ERow) : Prop := a.cases ≤ b.cases ∧ a.deaths ≤ b.deaths

instance : DecidableRel rowLE := fun a b =>
  inferInstanceAs (Decidable (a.cases ≤ b.cases ∧ a.deaths ≤ b.deaths))

/-- Executable check that every pair of consecutive rows satisfies `p`. -/
def chainB (p : ERow → ERow → Bool) : List ERow → Bool
  | a :: b :: t => p a b && chainB p (b :: t)
  | _ => true

/-- Dates strictly increase along the list. -/
def dateSorted (l : List ERow) : Prop := l.Chain' (fun a b => a.date < b.date)

instance (l : List ERow) : Decidable (dateSorted l) :=
  decidable_of_iff (chainB (fun a b => decide (a.date < b.date)) l = true) (by
    show _ ↔ l.Chain' _
    induction l with
    | nil => simp [chainB]
    | cons a t ih =>
      cases t with
      | nil => simp [chainB]
      | cons b t2 =>
        rw [chainB, List.chain'_cons, Bool.and_eq_true, decide_eq_true_iff, ih])

/-- The series is monotonically non-decreasing in both metrics. -/
def monotoneSeries (l : List ERow) : Prop := l.Chain' rowLE

instance (l : List ERow) : Decidable (monotoneSeries l) :=
  decidable_of_iff (chainB (fun a b => decide (rowLE a b)) l = true) (by
    show _ ↔ l.Chain' rowLE
    induction l with
    | nil => simp [chainB]
    | cons a t ih =>
      cases t with
      | nil => simp [chainB]
      | cons b t2 =>
        rw [chainB, List.chain'_cons, Bool.and_eq_true, decide_eq_true_iff, ih])

end Covid

/-! ## Label resolution (pipeline.py lines 372-448, utils.py lines 11-72) -/

namespace Covid

/-- utils.py lines 11-72, `ISO_3166_2`: US/Canada state, province and
territory full name → two-letter code. -/
def ISO_3166_2 : List (String × String) := [
  ("Alabama", "AL"), ("Alaska", "AK"), ("American Samoa", "AS"),
  ("Arizona", "AZ"), ("Arkansas", "AR"), ("California", "CA"),
  ("Colorado", "CO"), ("Connecticut", "CT"), ("Delaware", "DE"),
  ("District of Columbia", "DC"), ("Florida", "FL"), ("Georgia", "GA"),
  ("Guam", "GU"), ("Hawaii", "HI"), ("Idaho", "ID"), ("Illinois", "IL"),
  ("Indiana", "IN"), ("Iowa", "IA"), ("Kansas", "KS"), ("Kentucky", "KY"),
  ("Louisiana", "LA"), ("Maine", "ME"), ("Maryland", "MD"),
  ("Massachusetts", "MA"), ("Michigan", "MI"), ("Minnesota", "MN"),
  ("Mississippi", "MS"), ("Missouri", "MO"), ("Montana", "MT"),
  ("Nebraska", "NE"), ("Nevada", "NV"), ("New Hampshire", "NH"),
  ("New Jersey", "NJ"), ("New Mexico", "NM"), ("New York", "NY"),
  ("North Carolina", "NC"), ("North Dakota", "ND"),
  ("Northern Mariana Islands", "MP"), ("Ohio", "OH"), ("Oklahoma", "OK"),
  ("Oregon", "OR"), ("Palau", "PW"), ("Pennsylvania", "PA"),
  ("Puerto Rico", "PR"), ("Rhode Island", "RI"), ("South Carolina", "SC"),
  ("South Dakota", "SD"), ("Tennessee", "TN"), ("Texas", "TX"),
  ("Utah", "UT"), ("Vermont", "VT"), ("Virgin Islands", "VI"),
  ("Virginia", "VA"), ("Washington", "WA"), ("West Virginia", "WV"),
  ("Wisconsin", "WI"), ("Wyoming", "WY"), ("Ontario", "ON"),
  ("Quebec", "QC")]

/-- First-match association-list lookup: the semantics of a Python dict
with unique keys, and of the mapping argument of pandas `replace`/`map`. -/
def lookupS (x : String) : List (String × String) → Option String
  | [] => none
  | (k, v) :: rest => if x = k then some v else lookupS x rest

/-- Applying a resolution mapping as pandas `Series.replace(d)` does: a
label that is not a key passes through unchanged. -/
def applyMap (m : List (String × String)) (x : String) : String :=
  (lookupS x m).getD x

/-- pipeline.py line 439 / line 488: `dict(map(reversed, ISO_3166_2.items()))`,
the code → full-name direction. -/
def isoRev : List (String × String) := ISO_3166_2.map (fun p => (p.2, p.1))

/-- pipeline.py lines 373-397, `JHU._get_country_resolution`: the fixed
country override table. -/
def countryResolution : List (String × String) := [
  ("Bahamas, The", "Bahamas"),
  ("Congo (Brazzaville)", "Congo"),
  ("Congo (Kinshasa)", "Congo"),
  ("Gambia, The", "Gambia"),
  ("Hong Kong SAR", "Hong Kong"),
  ("Iran (Islamic Republic of)", "Iran"),
  ("Korea, South", "South Korea"),
  ("Macao SAR", "Macau"),
  ("Mainland China", "China"),
  ("Republic of Ireland", "Ireland"),
  ("Republic of Korea", "South Korea"),
  ("Republic of Moldova", "Moldova"),
  ("Republic of the Congo", "Congo"),
  ("Russian Federation", "Russia"),
  ("Taiwan*", "Taiwan"),
  ("Taipei and environs", "Taiwan"),
  ("The Bahamas", "Bahamas"),
  ("The Gambia", "Gambia"),
  ("United Kingdom", "UK"),
  ("Viet Nam", "Vietnam"),
  ("occupied Palestinian territory", "Palestine")]

/-- pipeline.py lines 402-418: the one-off state overrides
(`d.update(oneoffs)` takes precedence over the derived mapping). -/
def stateOneoffs : List (String × String) := [
  ("Omaha, NE (From Diamond Princess)", "Diamond Princess"),
  ("Travis, CA (From Diamond Princess)", "Diamond Princess"),
  ("Unassigned Location (From Diamond Princess)", "Diamond Princess"),
  ("Lackland, TX (From Diamond Princess)", "Diamond Princess"),
  ("Grand Princess Cruise Ship", "Grand Princess"),
  ("United States Virgin Islands", "Virgin Islands"),
  ("Virgin Islands, U.S.", "Virgin Islands"),
  ("Edmonton, Alberta", "Alberta"),
  ("Calgary, Alberta", "Alberta"),
  ("United Kingdom", "UK"),
  ("Fench Guiana", "French Guiana")]

/-- ASCII whitespace, the characters Python `str.strip()` removes from the
labels at hand (the feeds are ASCII). -/
def isSpaceChar (c : Char) : Bool :=
  c = ' ' || c = '\t' || c = '\n' || c = '\r'

/-- Python `str.strip()` on the character list. -/
def trimChars (l : List Char) : List Char :=
  ((l.dropWhile isSpaceChar).reverse.dropWhile isSpaceChar).reverse

/-- pipeline.py line 432: `str(s).strip().replace('.', '')`. -/
def cleanLabel (s : String) : String :=
  ((trimChars s.data).filter (fun c => c ≠ '.')).asString

/-- The `\w` class of the extraction regex (ASCII). -/
def isWordChar (c : Char) : Bool := c.isAlphanum || c = '_'

/-- pipeline.py line 438: `str.extract(r', (\w{2})$')`: a string ending in
a comma, a space and exactly two word characters yields those two
characters. -/
def extractCode (s : String) : Option String :=
  match s.data.reverse with
  | c2 :: c1 :: ' ' :: ',' :: _ =>
      if isWordChar c1 && isWordChar c2 then some ([c1, c2].asString)
      else none
  | _ => none

/-- pipeline.py lines 432-443: the derived resolution of one raw state
label: clean it, extract a trailing two-letter code, translate the code
through the reversed ISO table (`.map` yields null for an unknown code),
and fall back to the cleaned label (`fillna(df['_clean'])`). -/
def resolveDerived (s : String) : String :=
  match extractCode (cleanLabel s) with
  | some code => (lookupS code isoRev).getD (cleanLabel s)
  | none => cleanLabel s

/-- pipeline.py lines 399-448, `JHU._get_state_resolution`: the mapping
derived from the distinct raw state labels `labels` (the non-null,
already-stripped `province_state` values of US/Canada/UK/France rows),
overridden by the one-off table.  Listing the one-offs first gives them
lookup precedence, as `d.update(oneoffs)` does. -/
def stateResolution (labels : List String) : List (String × String) :=
  stateOneoffs ++ labels.dedup.map (fun s => (s, resolveDerived s))

/-- pandas `replace` applied to a nullable column value: null is not a key of the
mapping, so it passes through. -/
def applyMapOpt (m : List (String × String)) : Option String → Option String
  | none => none
  | some s => some (applyMap m s)

end Covid

/-! ## JHU pipeline (pipeline.py lines 146-448, utils.py lines 86-101) -/

namespace Covid

/-- One normalized raw JHU row (the column set produced by
`JHU._consolidate`, pipeline.py lines 262-274).  `filedate` is the
`_filedate` stamp of the daily file, dates are `yyyymmdd` numbers,
timestamps are abstract `Nat` instants, nullable columns are `Option`. -/
structure JRow where
  filedate : Nat
  filename : String
  country : String
  state : Option String
  admin2 : Option String
  confirmed : Option Int
  deaths : Option Int
  recovered : Option Int
  lastUpdate : Option Nat
deriving DecidableEq, Repr

/-- A fetched daily file: its column set and its parsed rows. -/
structure FileDF where
  cols : List String
  rows : List JRow
deriving DecidableEq, Repr

/-- Outcome of one daily fetch: the parsed file, or the server's
not-found condition (`requests.HTTPError`). -/
inductive FetchResult where
  | ok (df : FileDF)
  | notFound
deriving DecidableEq, Repr

/-- utils.py lines 86-101, `get_df` called with `errors='ignore'`
(pipeline.py line 220): a not-found fetch returns null instead of
raising. -/
def getDfIgnore : FetchResult → Option FileDF
  | .ok df => some df
  | .notFound => none

/-- How `JHU._get_data` dies: the schema assertion at line 227, or the
`columns[0]` IndexError when no file of the version was retrieved. -/
inductive SchemaErr where
  | schemaMismatch
  | indexError
deriving DecidableEq, Repr

/-- Equality of column sets: the Python code compares `set(df.columns)`,
so order and multiplicity are ignored. -/
def colSetEq (a b : List String) : Bool :=
  a.all (fun x => x ∈ b) && b.all (fun x => x ∈ a)

/-- pipeline.py lines 211-231, `JHU._get_data` for one schema version:
drop the days that were not retrieved, assert that all retrieved files
expose one column set, and union the rows. -/
def getDataVersion (fetched : List FetchResult) : Except SchemaErr (List JRow) :=
  let files := fetched.filterMap getDfIgnore
  match files with
  | [] => .error .indexError
  | f :: rest =>
      if rest.all (fun g => colSetEq g.cols f.cols)
      then .ok (((f :: rest).map FileDF.rows).flatten)
      else .error .schemaMismatch

/-- pipeline.py lines 300-307: the synthetic early Hubei rows
(confirmed/deaths literal, recovered and last-update null, empty
filename). -/
def chinaPatch : List JRow := [
  ⟨20200118, "", "China", some "Hubei", none, some 96, some 4, none, none⟩,
  ⟨20200119, "", "China", some "Hubei", none, some 132, some 6, none, none⟩,
  ⟨20200120, "", "China", some "Hubei", none, some 182, some 8, none, none⟩,
  ⟨20200121, "", "China", some "Hubei", none, some 250, some 11, none, none⟩]

/-- pipeline.py lines 278-309, `JHU._patch_errors`: zero the Travis, CA
rows of 2020-02-21 and append the Hubei backfill. -/
def patchErrors (rows : List JRow) : List JRow :=
  rows.map (fun r =>
    if r.filedate = 20200221 ∧ r.state = some "Travis, CA"
    then { r with confirmed := some 0 } else r) ++ chinaPatch

/-- The file dates touched by `JHU._patch_errors`. -/
def patchDates : List Nat := [20200118, 20200119, 20200120, 20200121, 20200221]

/-- Python `str.strip()` on a string. -/
def trimS (s : String) : String := (trimChars s.data).asString

/-- pipeline.py lines 319-320: strip the country and state labels. -/
def stripRow (r : JRow) : JRow :=
  { r with country := trimS r.country, state := r.state.map trimS }

/-- pipeline.py line 424: the countries whose state labels feed the
derived state-resolution table. -/
def fourCountries : List String := ["US", "Canada", "UK", "France"]

/-- pipeline.py lines 420-430: the non-null state labels of rows of those
countries (already stripped), the input of `_get_state_resolution`. -/
def stateLabels (rows : List JRow) : List String :=
  (rows.filter (fun r => decide (r.country ∈ fourCountries))).filterMap JRow.state

/-- A row ready for the groupby: key columns filled (state and county get
the empty string for null, pipeline.py lines 344-346 — not the broader
geographic level), labels resolved, `date` assigned from `_filedate`
(line 343), the original state label kept (line 335). -/
structure GRow where
  date : Nat
  country : String
  state : String
  admin2 : String
  filedate : Nat
  filename : String
  confirmed : Option Int
  deaths : Option Int
  recovered : Option Int
  lastUpdate : Option Nat
  stateGrouped : Option String
deriving DecidableEq, Repr

/-- pipeline.py lines 335-346 applied to one (already stripped) row. -/
def mkGroupRow (m : List (String × String)) (r : JRow) : GRow :=
  { date := r.filedate,
    country := applyMap countryResolution r.country,
    state := (applyMapOpt m r.state).getD "",
    admin2 := r.admin2.getD "",
    filedate := r.filedate,
    filename := r.filename,
    confirmed := r.confirmed,
    deaths := r.deaths,
    recovered := r.recovered,
    lastUpdate := r.lastUpdate,
    stateGrouped := r.state }

/-- The six groupby key columns, in the order of pipeline.py line 357. -/
structure GKey where
  date : Nat
  country : String
  state : String
  admin2 : String
  filedate : Nat
  filename : String
deriving DecidableEq, Repr

def gKey (r : GRow) : GKey :=
  ⟨r.date, r.country, r.state, r.admin2, r.filedate, r.filename⟩

/-- The claim-level aggregation key: (date, country, state, county). -/
structure Key4 where
  date : Nat
  country : String
  state : String
  admin2 : String
deriving DecidableEq, Repr

def key4G (r : GRow) : Key4 := ⟨r.date, r.country, r.state, r.admin2⟩

/-- One aggregated row (the groupby output before the blank-to-null
replace of pipeline.py line 367). -/
structure AggRow where
  date : Nat
  country : String
  state : String
  admin2 : String
  filedate : Nat
  filename : String
  confirmed : Int
  deaths : Int
  recovered : Int
  lastUpdate : Option Nat
  stateGrouped : List (Option String)
deriving DecidableEq, Repr

def key4A (a : AggRow) : Key4 := ⟨a.date, a.country, a.state, a.admin2⟩

/-- The `max` over the non-null timestamps of a group (pandas skips nulls and
yields null for an all-null group). -/
def maxOpt (l : List Nat) : Option Nat :=
  match l with
  | [] => none
  | x :: t => some (t.foldl max x)

/-- Combine one group (pipeline.py lines 359-365): sum the metrics
(pandas sum skips nulls, an all-null group sums to 0), take the maximum
timestamp, collect the original state labels in group order. -/
def aggGroup (k : GKey) (grp : List GRow) : AggRow :=
  { date := k.date, country := k.country, state := k.state,
    admin2 := k.admin2, filedate := k.filedate, filename := k.filename,
    confirmed := (grp.map (fun r => r.confirmed.getD 0)).sum,
    deaths := (grp.map (fun r => r.deaths.getD 0)).sum,
    recovered := (grp.map (fun r => r.recovered.getD 0)).sum,
    lastUpdate := maxOpt (grp.filterMap GRow.lastUpdate),
    stateGrouped := grp.map GRow.stateGrouped }

/-- Insertion into a list sorted by the boolean relation `le`. -/
def insertSorted (le : α → α → Bool) (x : α) : List α → List α
  | [] => [x]
  | y :: t => if le x y then x :: y :: t else y :: insertSorted le x t

/-- Insertion sort by the boolean relation `le`. -/
def sortByB (le : α → α → Bool) : List α → List α
  | [] => []
  | x :: t => insertSorted le x (sortByB le t)

/-- Lexicographic comparison of character lists by code point: Python's
string order for the labels at hand. -/
def charListLT : List Char → List Char → Bool
  | [], [] => false
  | [], _ :: _ => true
  | _ :: _, [] => false
  | a :: as, b :: bs =>
      if a.toNat < b.toNat then true
      else if b.toNat < a.toNat then false
      else charListLT as bs

/-- String order used for sorting keys. -/
def strLT (a b : String) : Bool := charListLT a.data b.data

/-- Lexicographic order on the groupby key, column order as in the code
(pandas `groupby(..., sort=True)` emits groups in ascending key order). -/
def gKeyLE (a b : GKey) : Bool :=
  if a.date ≠ b.date then a.date < b.date else
  if a.country ≠ b.country then strLT a.country b.country else
  if a.state ≠ b.state then strLT a.state b.state else
  if a.admin2 ≠ b.admin2 then strLT a.admin2 b.admin2 else
  if a.filedate ≠ b.filedate then a.filedate < b.filedate else
  if a.filename ≠ b.filename then strLT a.filename b.filename else true

/-- pipeline.py lines 357-366: group by the six key columns and combine
each group. -/
def groupAgg (rows : List GRow) : List AggRow :=
  (sortByB gKeyLE (rows.map gKey).dedup).map
    (fun k => aggGroup k (rows.filter (fun r => decide (gKey r = k))))

/-- pipeline.py line 367, `.replace(r'^\s*$', np.nan, regex=True)`: a
blank (empty or all-whitespace) string becomes null. -/
def blankToNone (s : String) : Option String :=
  if s.data.all isSpaceChar then none else some s

/-- One finalized clean row, after the blank-to-null replace. -/
structure FRow where
  date : Nat
  country : Option String
  state : Option String
  admin2 : Option String
  filedate : Nat
  filename : Option String
  confirmed : Int
  deaths : Int
  recovered : Int
  lastUpdate : Option Nat
  stateGrouped : List (Option String)
deriving DecidableEq, Repr

def finalizeRow (a : AggRow) : FRow :=
  { date := a.date, country := blankToNone a.country,
    state := blankToNone a.state, admin2 := blankToNone a.admin2,
    filedate := a.filedate, filename := blankToNone a.filename,
    confirmed := a.confirmed, deaths := a.deaths,
    recovered := a.recovered, lastUpdate := a.lastUpdate,
    stateGrouped := a.stateGrouped }

/-- Strict order on nullable strings with null greatest, as pandas
`sort_values` places NaN last. -/
def optStrLT (a b : Option String) : Bool :=
  match a, b with
  | some x, some y => strLT x y
  | some _, none => true
  | _, _ => false

/-- pipeline.py line 368: final sort by (date, country, state, county). -/
def fRowLE (a b : FRow) : Bool :=
  if a.date ≠ b.date then a.date < b.date else
  if a.country ≠ b.country then optStrLT a.country b.country else
  if a.state ≠ b.state then optStrLT a.state b.state else
  if a.admin2 ≠ b.admin2 then optStrLT a.admin2 b.admin2 else true

/-- pipeline.py lines 311-370, `JHU._clean_and_resolve`: strip labels,
build and apply the state and country resolutions, fill the key columns,
group-aggregate, blank out empties and sort. -/
def cleanAndResolve (rows : List JRow) : List FRow :=
  let stripped := rows.map stripRow
  let m := stateResolution (stateLabels stripped)
  sortByB fRowLE ((groupAgg (stripped.map (mkGroupRow m))).map finalizeRow)

/-- pipeline.py lines 172-183, `JHU.clean`: patch errors, then clean and
resolve. -/
def jhuClean (rows : List JRow) : List FRow :=
  cleanAndResolve (patchErrors rows)

/-- The canonical place of a finalized row. -/
def fPlace (r : FRow) : Option String × Option String × Option String :=
  (r.country, r.state, r.admin2)

/-- Executable check that consecutive finalized rows are monotone in
confirmed and deaths. -/
def chainFB : List FRow → Bool
  | a :: b :: t =>
      decide (a.confirmed ≤ b.confirmed) && decide (a.deaths ≤ b.deaths)
        && chainFB (b :: t)
  | _ => true

/-- The finalized JHU table forms a monotone non-decreasing series per
place, ignoring the explicitly patched dates (the output is sorted with
`date` as the leading key, so each place's rows appear in date order). -/
def jhuMonotoneB (out : List FRow) : Bool :=
  (out.map fPlace).dedup.all (fun p =>
    chainFB (out.filter (fun r =>
      decide (fPlace r = p) && decide (r.date ∉ patchDates))))

end Covid

/-! ## Supporting lemmas for the ECDC per-place series -/

namespace Covid

theorem rowLE_refl (a : ERow) : rowLE a a := ⟨le_refl _, le_refl _⟩

theorem rowLE_trans {a b c : ERow} (h1 : rowLE a b) (h2 : rowLE b c) :
    rowLE a c := ⟨le_trans h1.1 h2.1, le_trans h1.2 h2.2⟩

theorem dropStaleTail_eq_or (l : List ERow) :
    dropStaleTail l = l ∨ dropStaleTail l = l.dropLast := by
  unfold dropStaleTail
  split
  · split
    · exact Or.inr rfl
    · exact Or.inl rfl
  · exact Or.inl rfl

theorem dropStaleTail_chain' {R : ERow → ERow → Prop} {l : List ERow}
    (h : l.Chain' R) : (dropStaleTail l).Chain' R := by
  rcases dropStaleTail_eq_or l with he | he <;> rw [he]
  · exact h
  · cases hl : l with
    | nil => simp
    | cons a t =>
      have hne : l ≠ [] := by simp [hl]
      have h2 : (l.dropLast ++ [l.getLast hne]).Chain' R := by
        rw [List.dropLast_append_getLast hne]; exact h
      rw [← hl]
      exact h2.left_of_append

theorem tzShift_nonneg {l : List ERow}
    (h : ∀ r ∈ l, 0 ≤ r.cases ∧ 0 ≤ r.deaths) :
    ∀ r ∈ tzShift l, 0 ≤ r.cases ∧ 0 ≤ r.deaths := by
  induction l with
  | nil => simp [tzShift]
  | cons a t ih =>
    cases t with
    | nil => simp [tzShift]
    | cons b t2 =>
      intro r hr
      rw [tzShift] at hr
      rcases List.mem_cons.mp hr with h1 | h1
      · subst h1; exact h b (by simp)
      · exact ih (fun x hx => h x (List.mem_cons_of_mem _ hx)) r h1

theorem cumsumRows_chain' (l : List ERow) :
    ∀ c d : Int, (∀ r ∈ l, 0 ≤ r.cases ∧ 0 ≤ r.deaths) →
      (cumsumRows c d l).Chain' rowLE := by
  induction l with
  | nil => intro c d _; simp [cumsumRows]
  | cons r rest ih =>
    intro c d h
    rw [cumsumRows, List.chain'_cons']
    refine ⟨?_, ih _ _ (fun x hx => h x (List.mem_cons_of_mem _ hx))⟩
    intro y hy
    cases rest with
    | nil => simp [cumsumRows] at hy
    | cons r2 rest2 =>
      rw [cumsumRows] at hy
      simp only [List.head?_cons, Option.mem_some_iff] at hy
      subst hy
      have h2 := h r2 (by simp)
      exact ⟨by simp; linarith [h2.1], by simp; linarith [h2.2]⟩

theorem valAt_date (v : ERow) (d : Nat) (l : List ERow) :
    (valAt v d l).date = d := by
  induction l generalizing v with
  | nil => rfl
  | cons r rest ih => unfold valAt; split <;> simp [ih]

theorem chain_rowLE_valAt (l : List ERow) :
    ∀ v e, List.Chain rowLE v l → rowLE v (valAt v e l) := by
  induction l with
  | nil => intro v e _; exact ⟨le_refl _, le_refl _⟩
  | cons r rest ih =>
    intro v e hc
    rcases List.chain_cons.mp hc with ⟨h1, h2⟩
    unfold valAt
    split
    · exact rowLE_trans h1 (ih r e h2)
    · exact ⟨le_refl _, le_refl _⟩

theorem valAt_mono (l : List ERow) :
    ∀ v d e, d ≤ e → List.Chain rowLE v l →
      rowLE (valAt v d l) (valAt v e l) := by
  induction l with
  | nil => intro v d e _ _; exact ⟨le_refl _, le_refl _⟩
  | cons r rest ih =>
    intro v d e hde hc
    rcases List.chain_cons.mp hc with ⟨h1, h2⟩
    unfold valAt
    by_cases hd : r.date ≤ d
    · rw [if_pos hd, if_pos (le_trans hd hde)]
      exact ih r d e hde h2
    · rw [if_neg hd]
      by_cases he : r.date ≤ e
      · rw [if_pos he]
        exact rowLE_trans h1 (chain_rowLE_valAt rest r e h2)
      · rw [if_neg he]
        exact ⟨le_refl _, le_refl _⟩

theorem resampleFfill_mono {l : List ERow} (h : monotoneSeries l) :
    monotoneSeries (resampleFfill l) := by
  cases l with
  | nil => simp [resampleFfill, monotoneSeries]
  | cons r0 rest =>
    unfold monotoneSeries resampleFfill
    simp only
    rw [List.chain'_map, List.chain'_range_succ]
    intro m _
    exact valAt_mono (r0 :: rest) r0 (r0.date + m) (r0.date + m.succ)
      (by omega) (List.Chain.cons (rowLE_refl r0) h)

end Covid

namespace Covid

/-- C2: in the ECDC finalizer, the last row of a place's series is dropped
if and only if its cases and deaths both equal the previous row's; any row
that is not the last of its place's series is retained, even when it shows
the same no-change pattern. -/
theorem ecdc_stale_tail_rule (l : List ERow) :
    (∀ pre p r, l = pre ++ [p, r] →
        dropStaleTail l
          = if r.cases = p.cases ∧ r.deaths = p.deaths then pre ++ [p] else l)
      ∧ ∀ i (h : i + 1 < l.length),
          l.get ⟨i, Nat.lt_of_succ_lt h⟩ ∈ dropStaleTail l := by
  constructor
  · rintro pre p r rfl
    have hsplit : pre ++ [p, r] = (pre ++ [p]) ++ [r] := by simp
    have h1 : (pre ++ [p, r]).getLast? = some r := by
      rw [hsplit, List.getLast?_concat]
    have h2 : (pre ++ [p, r]).dropLast = pre ++ [p] := by
      rw [hsplit, List.dropLast_concat]
    unfold dropStaleTail
    rw [h1, h2, List.getLast?_concat]
  · intro i h
    have hi : i < l.length := Nat.lt_of_succ_lt h
    rw [List.get_eq_getElem]
    rcases dropStaleTail_eq_or l with he | he <;> rw [he]
    · exact List.getElem_mem hi
    · have hlt : i < l.dropLast.length := by
        rw [List.length_dropLast]; omega
      exact (List.getElem_dropLast l i hlt) ▸ List.getElem_mem hlt

/-- Witness for C2: a trailing no-change row (100 cases, 5 deaths repeated
at the end) is dropped, while the same duplicate pattern mid-series is
retained. -/
theorem ecdc_stale_tail_rule_witness :
    dropStaleTail [⟨0, 100, 5⟩, ⟨1, 100, 5⟩] = [⟨0, 100, 5⟩]
      ∧ dropStaleTail [⟨0, 100, 5⟩, ⟨1, 100, 5⟩, ⟨2, 104, 6⟩]
          = [⟨0, 100, 5⟩, ⟨1, 100, 5⟩, ⟨2, 104, 6⟩]
      ∧ (⟨1, 100, 5⟩ : ERow)
          ∈ dropStaleTail [⟨0, 100, 5⟩, ⟨1, 100, 5⟩, ⟨2, 104, 6⟩] := by
  refine ⟨?_, ?_, ?_⟩
  · have h := (ecdc_stale_tail_rule [⟨0, 100, 5⟩, ⟨1, 100, 5⟩]).1
      [] ⟨0, 100, 5⟩ ⟨1, 100, 5⟩ rfl
    simpa using h
  · have h := (ecdc_stale_tail_rule [⟨0, 100, 5⟩, ⟨1, 100, 5⟩, ⟨2, 104, 6⟩]).1
      [⟨0, 100, 5⟩] ⟨1, 100, 5⟩ ⟨2, 104, 6⟩ rfl
    simpa using h
  · have h := (ecdc_stale_tail_rule [⟨0, 100, 5⟩, ⟨1, 100, 5⟩, ⟨2, 104, 6⟩]).2
      1 (by decide)
    simpa using h

/-- C9: after per-place daily resampling with forward fill, the finalized
series has exactly one row per calendar day from the place's first to its
last observed date (the date column is precisely the contiguous range; the
metric columns are total, so no nulls remain). -/
theorem ecdc_resample_one_row_per_day (r0 rn : ERow) (rest : List ERow)
    (hlast : (r0 :: rest).getLast? = some rn)
    (_hsort : dateSorted (r0 :: rest)) :
    (resampleFfill (r0 :: rest)).map ERow.date
      = List.range' r0.date (rn.date - r0.date + 1) := by
  unfold resampleFfill
  simp only [hlast, Option.map_some', Option.getD_some]
  rw [List.map_map, List.range'_eq_map_range]
  simp [Function.comp, valAt_date]

/-- Witness for C9: a three-row series with a gap (days 1, 2, 5) resamples
to one row per day 1 through 5. -/
theorem ecdc_resample_one_row_per_day_witness :
    (resampleFfill [⟨1, 10, 2⟩, ⟨2, 13, 3⟩, ⟨5, 20, 4⟩]).map ERow.date
      = List.range' 1 5 := by
  have h := ecdc_resample_one_row_per_day ⟨1, 10, 2⟩ ⟨5, 20, 4⟩
    [⟨2, 13, 3⟩, ⟨5, 20, 4⟩] (by rfl) (by decide)
  simpa using h

/-- C1 (amended): for the ECDC source, if every raw per-day case and death
count is non-negative then the cleaned per-place series (time-zone shift,
cumulative sum, stale-tail drop, daily resample with forward fill) is
monotonically non-decreasing in both metrics.  The unconditional claim is
false: see the counterexample. -/
theorem ecdc_clean_monotone (l : List ERow)
    (hpos : ∀ r ∈ l, 0 ≤ r.cases ∧ 0 ≤ r.deaths)
    (_hsort : dateSorted l) :
    monotoneSeries (ecdcCleanPlace l) :=
  resampleFfill_mono
    (dropStaleTail_chain' (cumsumRows_chain' (tzShift l) 0 0 (tzShift_nonneg hpos)))

/-- Witness for C1 (amended): a concrete non-negative daily series yields a
monotone cleaned series. -/
theorem ecdc_clean_monotone_witness :
    monotoneSeries (ecdcCleanPlace [⟨1, 5, 1⟩, ⟨2, 10, 2⟩, ⟨5, 3, 1⟩]) :=
  ecdc_clean_monotone [⟨1, 5, 1⟩, ⟨2, 10, 2⟩, ⟨5, 3, 1⟩] (by decide) (by decide)

end Covid

/-! ## Lemmas about label resolution -/

namespace Covid

theorem lookupS_mem {x v : String} :
    ∀ {m : List (String × String)}, lookupS x m = some v → (x, v) ∈ m := by
  intro m h
  induction m with
  | nil => simp [lookupS] at h
  | cons p rest ih =>
    rw [lookupS] at h
    split at h
    · rename_i heq
      injection h with h
      subst h; subst heq
      exact List.mem_cons_self _ _
    · exact List.mem_cons_of_mem _ (ih h)

theorem lookupS_append_some {x v : String} {m1 : List (String × String)}
    (m2 : List (String × String)) (h : lookupS x m1 = some v) :
    lookupS x (m1 ++ m2) = some v := by
  induction m1 with
  | nil => simp [lookupS] at h
  | cons p rest ih =>
    rw [lookupS] at h
    rw [List.cons_append, lookupS]
    split at h <;> split <;> try assumption
    all_goals simp_all

theorem lookupS_append_none {x : String} {m1 : List (String × String)}
    (m2 : List (String × String)) (h : lookupS x m1 = none) :
    lookupS x (m1 ++ m2) = lookupS x m2 := by
  induction m1 with
  | nil => rfl
  | cons p rest ih =>
    rw [lookupS] at h
    rw [List.cons_append, lookupS]
    split at h
    · exact absurd h (by simp)
    · split
      · simp_all
      · exact ih h

theorem lookupS_mapped {g : String → String} {y w : String}
    {lst : List String}
    (h : lookupS y (lst.map (fun s => (s, g s))) = some w) :
    w = g y ∧ y ∈ lst := by
  induction lst with
  | nil => simp [lookupS] at h
  | cons a t ih =>
    rw [List.map_cons, lookupS] at h
    split at h
    · rename_i heq
      injection h with h
      subst heq
      exact ⟨h.symm, List.mem_cons_self _ _⟩
    · rcases ih h with ⟨h1, h2⟩
      exact ⟨h1, List.mem_cons_of_mem _ h2⟩

/-- No value of the one-off override table is itself a one-off key. -/
theorem oneoff_value_not_key :
    ∀ p ∈ stateOneoffs, lookupS p.2 stateOneoffs = none := by decide

/-- Every value of the one-off override table is a fixed point of the
derived resolution. -/
theorem oneoff_value_fixed :
    ∀ p ∈ stateOneoffs, resolveDerived p.2 = p.2 := by decide

/-- No full region name of the ISO table is a one-off key. -/
theorem iso_name_not_oneoff_key :
    ∀ p ∈ isoRev, lookupS p.2 stateOneoffs = none := by decide

/-- Every full region name of the ISO table is a fixed point of the
derived resolution. -/
theorem iso_name_fixed : ∀ p ∈ isoRev, resolveDerived p.2 = p.2 := by decide

/-- No value of the country table is itself a country key. -/
theorem countryRes_value_fixed :
    ∀ p ∈ countryResolution, lookupS p.2 countryResolution = none := by decide

/-- Cleaning is idempotent on a label whose cleaned form is already
trimmed (removing periods can expose new edge whitespace, so the proviso
is needed). -/
theorem cleanLabel_cleanLabel {s : String}
    (h : trimChars (cleanLabel s).data = (cleanLabel s).data) :
    cleanLabel (cleanLabel s) = cleanLabel s := by
  show ((trimChars (cleanLabel s).data).filter _).asString = cleanLabel s
  rw [h]
  show (((trimChars s.data).filter _).filter _).asString = cleanLabel s
  rw [List.filter_filter]
  simp only [Bool.and_self]
  rfl

end Covid

namespace Covid

/-- A value `v` that the mapping either does not know or maps to itself is
left unchanged by application. -/
theorem applyMap_fixed {m : List (String × String)} {v : String}
    (h : lookupS v m = none ∨ lookupS v m = some v) : applyMap m v = v := by
  rcases h with h | h <;> simp [applyMap, h]

/-- A label that is not a one-off key and resolves to itself whenever it
occurs among the raw labels is a fixed point of the full state mapping. -/
theorem stateRes_fix {L : List String} {v : String}
    (h1 : lookupS v stateOneoffs = none)
    (h2 : v ∈ L → resolveDerived v = v) :
    applyMap (stateResolution L) v = v := by
  unfold applyMap stateResolution
  rw [lookupS_append_none _ h1]
  cases h3 : lookupS v (L.dedup.map fun s => (s, resolveDerived s)) with
  | none => simp
  | some w =>
    obtain ⟨hw, hmem⟩ := lookupS_mapped h3
    simp [hw, h2 (List.mem_dedup.mp hmem)]

/-- C3 (amended): the country-resolution mapping is idempotent on every
label.  The state-resolution mapping built from raw labels `L` is
idempotent provided every label in `L` is whitespace-trimmed (the pipeline
strips the column first, pipeline.py line 320) and no label outside the
one-off override table cleans to a one-off key.  Without the proviso
idempotence can fail: see the counterexample. -/
theorem resolution_idempotent (L : List String)
    (htrim : ∀ y ∈ L, trimChars y.data = y.data)
    (hclean : ∀ y ∈ L, (lookupS (cleanLabel y) stateOneoffs).isSome →
        (lookupS y stateOneoffs).isSome) :
    (∀ x, applyMap countryResolution (applyMap countryResolution x)
        = applyMap countryResolution x)
      ∧ ∀ x, applyMap (stateResolution L) (applyMap (stateResolution L) x)
          = applyMap (stateResolution L) x := by
  constructor
  · intro x
    cases h : lookupS x countryResolution with
    | none => simp [applyMap, h]
    | some v =>
      have hx : applyMap countryResolution x = v := by simp [applyMap, h]
      rw [hx]
      exact applyMap_fixed (Or.inl (countryRes_value_fixed _ (lookupS_mem h)))
  · intro x
    cases h : lookupS x (stateResolution L) with
    | none => simp [applyMap, h]
    | some v =>
      have hx : applyMap (stateResolution L) x = v := by simp [applyMap, h]
      rw [hx]
      rw [stateResolution] at h
      cases h1 : lookupS x stateOneoffs with
      | some w =>
        rw [lookupS_append_some _ h1] at h
        injection h with h
        subst h
        exact stateRes_fix (oneoff_value_not_key _ (lookupS_mem h1))
          (fun _ => oneoff_value_fixed _ (lookupS_mem h1))
      | none =>
        rw [lookupS_append_none _ h1] at h
        obtain ⟨hw, hxL0⟩ := lookupS_mapped h
        have hxL : x ∈ L := List.mem_dedup.mp hxL0
        subst hw
        have hcx : lookupS (cleanLabel x) stateOneoffs = none := by
          cases h4 : lookupS (cleanLabel x) stateOneoffs with
          | none => rfl
          | some u =>
            have h5 := hclean x hxL (by rw [h4]; rfl)
            rw [h1] at h5
            exact absurd h5 (by simp)
        simp only [resolveDerived]
        cases hE : extractCode (cleanLabel x) with
        | some code =>
          cases hIso : lookupS code isoRev with
          | some name =>
            simp only [hIso, Option.getD_some]
            exact stateRes_fix (iso_name_not_oneoff_key _ (lookupS_mem hIso))
              (fun _ => iso_name_fixed _ (lookupS_mem hIso))
          | none =>
            simp only [hIso, Option.getD_none]
            refine stateRes_fix hcx (fun hmem => ?_)
            have hcc := cleanLabel_cleanLabel (htrim _ hmem)
            rw [resolveDerived, hcc, hE]
            simp [hIso]
        | none =>
          refine stateRes_fix hcx (fun hmem => ?_)
          have hcc := cleanLabel_cleanLabel (htrim _ hmem)
          rw [resolveDerived, hcc, hE]

end Covid

namespace Covid

/-- Witness for C3 (amended): a trimmed label list satisfying the proviso,
on which applying the state mapping twice equals applying it once. -/
theorem resolution_idempotent_witness :
    applyMap (stateResolution ["Orange County, CA", "California"])
        (applyMap (stateResolution ["Orange County, CA", "California"])
          "Orange County, CA")
      = applyMap (stateResolution ["Orange County, CA", "California"])
          "Orange County, CA" :=
  (resolution_idempotent ["Orange County, CA", "California"] (by decide)
    (by decide)).2 "Orange County, CA"

/-- Counterexample for C3 as stated: resolution is not idempotent for
every raw label.  With raw state label "United Kingdom." the derived
mapping resolves it to "United Kingdom" (period stripped), which the
one-off override table maps further to "UK". -/
theorem resolution_idempotent_cex :
    applyMap (stateResolution ["United Kingdom."])
        (applyMap (stateResolution ["United Kingdom."]) "United Kingdom.")
      ≠ applyMap (stateResolution ["United Kingdom."]) "United Kingdom." := by
  decide

/-- C8: in state-label resolution, a cleaned label with an extracted
trailing two-letter code whose translation exists resolves to the
translated full region name; a cleaned label with no extracted code
resolves to the cleaned label itself; "Orange County, CA" resolves to
"California" through the full derived-plus-override mapping. -/
theorem state_code_resolution (s : String) :
    (∀ code name, extractCode (cleanLabel s) = some code →
        lookupS code isoRev = some name → resolveDerived s = name)
      ∧ (extractCode (cleanLabel s) = none → resolveDerived s = cleanLabel s)
      ∧ applyMap (stateResolution ["Orange County, CA", "California"])
          "Orange County, CA" = "California" := by
  refine ⟨?_, ?_, by decide⟩
  · intro code name hE hIso
    rw [resolveDerived, hE]
    simp [hIso]
  · intro hE
    rw [resolveDerived, hE]

/-- Witness for C8: "Orange County, CA" extracts the code "CA", which
translates to "California"; "California" itself extracts nothing and
resolves to itself. -/
theorem state_code_resolution_witness :
    resolveDerived "Orange County, CA" = "California"
      ∧ resolveDerived "California" = "California" :=
  ⟨(state_code_resolution "Orange County, CA").1 "CA" "California"
      (by decide) (by decide),
    (state_code_resolution "California").2.1 (by decide)⟩

end Covid

/-! ## Lemmas and claims about fetching and schema validation -/

namespace Covid

theorem colSetEq_iff {a b : List String} :
    colSetEq a b = true ↔ ∀ x, x ∈ a ↔ x ∈ b := by
  unfold colSetEq
  rw [Bool.and_eq_true, List.all_eq_true, List.all_eq_true]
  simp only [decide_eq_true_iff]
  constructor
  · rintro ⟨h1, h2⟩ x
    exact ⟨fun hx => h1 x hx, fun hx => h2 x hx⟩
  · intro h
    exact ⟨fun x hx => (h x).mp hx, fun x hx => (h x).mpr hx⟩

/-- C4: if any two retrieved per-day files of a schema version expose
different column sets, `_get_data` fails fast with the schema-mismatch
assertion; the data is never coerced to a common schema. -/
theorem schema_mismatch_aborts (fetched : List FetchResult) (f g : FileDF)
    (hf : f ∈ fetched.filterMap getDfIgnore)
    (hg : g ∈ fetched.filterMap getDfIgnore)
    (hne : colSetEq f.cols g.cols = false) :
    getDataVersion fetched = .error .schemaMismatch := by
  unfold getDataVersion
  cases hfl : fetched.filterMap getDfIgnore with
  | nil => rw [hfl] at hf; simp at hf
  | cons f0 rest =>
    rw [hfl] at hf hg
    simp only
    have key : rest.all (fun gg => colSetEq gg.cols f0.cols) = true → False := by
      intro hall
      rw [List.all_eq_true] at hall
      have hEq : ∀ x ∈ f0 :: rest, ∀ y, y ∈ x.cols ↔ y ∈ f0.cols := by
        intro x hx
        rcases List.mem_cons.mp hx with h | h
        · subst h; exact fun y => Iff.rfl
        · exact colSetEq_iff.mp (hall x h)
      have h1 := hEq f hf
      have h2 := hEq g hg
      have h3 : colSetEq f.cols g.cols = true :=
        colSetEq_iff.mpr (fun y => (h1 y).trans (h2 y).symm)
      rw [hne] at h3
      exact Bool.false_ne_true h3
    cases hall : rest.all (fun gg => colSetEq gg.cols f0.cols) with
    | true => exact absurd (key hall) (fun h => h)
    | false => rfl

/-- Witness for C4: two retrieved files with columns {a,b} and {a,c}
abort with the schema mismatch, even with a skipped day between them. -/
theorem schema_mismatch_aborts_witness :
    getDataVersion [FetchResult.ok ⟨["a", "b"], []⟩, FetchResult.notFound,
        FetchResult.ok ⟨["a", "c"], []⟩]
      = .error .schemaMismatch :=
  schema_mismatch_aborts _ ⟨["a", "b"], []⟩ ⟨["a", "c"], []⟩
    (by decide) (by decide) (by decide)

/-- C5: a day whose fetch returns not-found is skipped silently: it
contributes no rows to the unioned table (the union over the remaining
days is unchanged), and provided the retrieved days pass the schema
check the run succeeds with exactly the union of the retrieved rows. -/
theorem missing_day_skipped (pre post : List FetchResult) (f0 : FileDF)
    (rest : List FileDF)
    (hfiles : (pre ++ post).filterMap getDfIgnore = f0 :: rest)
    (hok : rest.all (fun g => colSetEq g.cols f0.cols) = true) :
    getDataVersion (pre ++ FetchResult.notFound :: post)
        = getDataVersion (pre ++ post)
      ∧ getDataVersion (pre ++ post)
          = .ok (((f0 :: rest).map FileDF.rows).flatten) := by
  have hskip : (pre ++ FetchResult.notFound :: post).filterMap getDfIgnore
      = (pre ++ post).filterMap getDfIgnore := by
    rw [List.filterMap_append, List.filterMap_append, List.filterMap_cons]
    simp [getDfIgnore]
  constructor
  · unfold getDataVersion
    rw [hskip]
  · unfold getDataVersion
    rw [hfiles]
    simp only
    rw [if_pos hok]

/-- Witness for C5: a not-found day between two well-formed days is
absent from the union and the run succeeds. -/
theorem missing_day_skipped_witness :
    getDataVersion [FetchResult.ok ⟨["a"], [⟨20200301, "f", "US", none, none,
          some 1, some 0, some 0, none⟩]⟩, FetchResult.notFound,
        FetchResult.ok ⟨["a"], []⟩]
      = getDataVersion [FetchResult.ok ⟨["a"], [⟨20200301, "f", "US", none,
          none, some 1, some 0, some 0, none⟩]⟩, FetchResult.ok ⟨["a"], []⟩]
      ∧ getDataVersion [FetchResult.ok ⟨["a"], [⟨20200301, "f", "US", none,
          none, some 1, some 0, some 0, none⟩]⟩, FetchResult.ok ⟨["a"], []⟩]
        = .ok [⟨20200301, "f", "US", none, none, some 1, some 0, some 0,
            none⟩] :=
  missing_day_skipped [FetchResult.ok ⟨["a"], [⟨20200301, "f", "US", none,
      none, some 1, some 0, some 0, none⟩]⟩] [FetchResult.ok ⟨["a"], []⟩]
    ⟨["a"], [⟨20200301, "f", "US", none, none, some 1, some 0, some 0,
      none⟩]⟩ [⟨["a"], []⟩] (by decide) (by decide)

end Covid

/-! ## Lemmas and claims about the aggregation step -/

namespace Covid

theorem mem_insertSorted {le : α → α → Bool} {x y : α} {l : List α} :
    x ∈ insertSorted le y l ↔ x = y ∨ x ∈ l := by
  induction l with
  | nil => simp [insertSorted]
  | cons z t ih =>
    unfold insertSorted
    split
    · simp [List.mem_cons]
    · rw [List.mem_cons, ih, List.mem_cons]
      tauto

theorem mem_sortByB {le : α → α → Bool} {x : α} {l : List α} :
    x ∈ sortByB le l ↔ x ∈ l := by
  induction l with
  | nil => simp [sortByB]
  | cons y t ih => rw [sortByB, mem_insertSorted, ih, List.mem_cons]

theorem groupAgg_mem {rows : List GRow} {a : AggRow} (ha : a ∈ groupAgg rows) :
    ∃ k, k ∈ rows.map gKey
      ∧ a = aggGroup k (rows.filter (fun r => decide (gKey r = k))) := by
  unfold groupAgg at ha
  obtain ⟨k, hk, heq⟩ := List.mem_map.mp ha
  exact ⟨k, List.mem_dedup.mp (mem_sortByB.mp hk), heq.symm⟩

theorem key4A_aggGroup (k : GKey) (grp : List GRow) :
    key4A (aggGroup k grp) = ⟨k.date, k.country, k.state, k.admin2⟩ := rfl

/-- Under the pipeline invariants (`date` is assigned from `_filedate`,
and the file name is a function of the file date), the six-column group
of a key coincides with its (date, country, state, county) group. -/
theorem filter_key4_eq {rows : List GRow} {k : GKey}
    (hdate : ∀ r ∈ rows, r.date = r.filedate)
    (hfn : ∀ r ∈ rows, ∀ r2 ∈ rows, r.filedate = r2.filedate →
        r.filename = r2.filename)
    {r0 : GRow} (hr0 : r0 ∈ rows) (hk : gKey r0 = k) :
    rows.filter (fun r => decide (gKey r = k))
      = rows.filter (fun r =>
          decide (key4G r = ⟨k.date, k.country, k.state, k.admin2⟩)) := by
  apply List.filter_congr
  intro r hr
  simp only [decide_eq_decide]
  constructor
  · intro h
    rw [← h]
    rfl
  · intro h4
    have hc : r.date = k.date ∧ r.country = k.country ∧ r.state = k.state
        ∧ r.admin2 = k.admin2 := by
      simpa [key4G, Key4.mk.injEq] using h4
    have hfd : r.filedate = k.filedate := by
      have e1 : k.filedate = r0.filedate := by rw [← hk]; rfl
      have e2 : k.date = r0.date := by rw [← hk]; rfl
      rw [← hdate r hr, hc.1, e1, ← hdate r0 hr0, e2]
    have hfn2 : r.filename = k.filename := by
      have e1 : k.filename = r0.filename := by rw [← hk]; rfl
      have e3 : r.filedate = r0.filedate := by
        rw [hfd]; rw [← hk]; rfl
      rw [e1]
      exact hfn r hr r0 hr0 e3
    rw [← hk] at hc hfd hfn2 ⊢
    simp only [gKey, GKey.mk.injEq]
    exact ⟨hc.1, hc.2.1, hc.2.2.1, hc.2.2.2, hfd, hfn2⟩

/-- C6: aggregation conserves the metrics per (date, country, state,
county) key: every aggregated row's confirmed/deaths/recovered is the sum
of that metric over the rows of its key, its last-update is their maximum
timestamp, and the original pre-resolution state labels are collected
into a list; every input row's key is covered, by exactly one aggregated
row.  (The hypotheses hold for the pipeline's input: `date` is assigned
from `_filedate` at line 343, and `_filename` is the formatted
`_filedate`, line 214.) -/
theorem aggregation_conserves (rows : List GRow)
    (hdate : ∀ r ∈ rows, r.date = r.filedate)
    (hfn : ∀ r ∈ rows, ∀ r2 ∈ rows, r.filedate = r2.filedate →
        r.filename = r2.filename) :
    (∀ a ∈ groupAgg rows,
        a.confirmed = ((rows.filter (fun r => decide (key4G r = key4A a))).map
            (fun r => r.confirmed.getD 0)).sum
        ∧ a.deaths = ((rows.filter (fun r => decide (key4G r = key4A a))).map
            (fun r => r.deaths.getD 0)).sum
        ∧ a.recovered = ((rows.filter (fun r =>
            decide (key4G r = key4A a))).map
            (fun r => r.recovered.getD 0)).sum
        ∧ a.lastUpdate = maxOpt ((rows.filter (fun r =>
            decide (key4G r = key4A a))).filterMap GRow.lastUpdate)
        ∧ a.stateGrouped = (rows.filter (fun r =>
            decide (key4G r = key4A a))).map GRow.stateGrouped)
      ∧ (∀ r ∈ rows, ∃ a ∈ groupAgg rows, key4A a = key4G r)
      ∧ (∀ a ∈ groupAgg rows, ∀ b ∈ groupAgg rows,
          key4A a = key4A b → a = b) := by
  refine ⟨?_, ?_, ?_⟩
  · intro a ha
    obtain ⟨k, hkmem, rfl⟩ := groupAgg_mem ha
    obtain ⟨r0, hr0, hk⟩ := List.mem_map.mp hkmem
    rw [key4A_aggGroup, ← filter_key4_eq hdate hfn hr0 hk]
    exact ⟨rfl, rfl, rfl, rfl, rfl⟩
  · intro r hr
    refine ⟨aggGroup (gKey r) (rows.filter (fun x =>
      decide (gKey x = gKey r))), ?_, rfl⟩
    unfold groupAgg
    exact List.mem_map.mpr ⟨gKey r,
      mem_sortByB.mpr (List.mem_dedup.mpr (List.mem_map.mpr ⟨r, hr, rfl⟩)),
      rfl⟩
  · intro a ha b hb hab
    obtain ⟨k1, hk1mem, rfl⟩ := groupAgg_mem ha
    obtain ⟨k2, hk2mem, rfl⟩ := groupAgg_mem hb
    obtain ⟨r1, hr1, hk1⟩ := List.mem_map.mp hk1mem
    obtain ⟨r2, hr2, hk2⟩ := List.mem_map.mp hk2mem
    rw [key4A_aggGroup, key4A_aggGroup, Key4.mk.injEq] at hab
    have hfd1 : k1.filedate = k1.date := by
      rw [← hk1]
      show r1.filedate = r1.date
      exact (hdate r1 hr1).symm
    have hfd2 : k2.filedate = k2.date := by
      rw [← hk2]
      show r2.filedate = r2.date
      exact (hdate r2 hr2).symm
    have hfd : k1.filedate = k2.filedate := by
      rw [hfd1, hfd2, hab.1]
    have hfname : k1.filename = k2.filename := by
      rw [← hk1, ← hk2]
      apply hfn r1 hr1 r2 hr2
      have e1 : r1.filedate = k1.filedate := by rw [← hk1]; rfl
      have e2 : r2.filedate = k2.filedate := by rw [← hk2]; rfl
      rw [e1, e2, hfd]
    have hk12 : k1 = k2 := by
      cases k1; cases k2
      simp only [GKey.mk.injEq]
      exact ⟨hab.1, hab.2.1, hab.2.2.1, hab.2.2.2, hfd, hfname⟩
    rw [hk12]

end Covid

namespace Covid

/-- Witness for C6: two resolved rows sharing the key (2020-03-09, US,
California) aggregate into one row whose key covers both, and the
aggregated confirmed count is the sum 3 + 4 = 7. -/
theorem aggregation_conserves_witness :
    (∃ a ∈ groupAgg [⟨20200309, "US", "California", "", 20200309, "f.csv",
        some 3, some 1, some 0, some 10, some "Orange County, CA"⟩,
        ⟨20200309, "US", "California", "", 20200309, "f.csv",
        some 4, some 0, some 0, some 12, some "California"⟩],
        key4A a = key4G ⟨20200309, "US", "California", "", 20200309, "f.csv",
          some 3, some 1, some 0, some 10, some "Orange County, CA"⟩)
      ∧ (groupAgg [⟨20200309, "US", "California", "", 20200309, "f.csv",
          some 3, some 1, some 0, some 10, some "Orange County, CA"⟩,
          ⟨20200309, "US", "California", "", 20200309, "f.csv",
          some 4, some 0, some 0, some 12, some "California"⟩]).map
          (fun a => (a.confirmed, a.deaths, a.lastUpdate, a.stateGrouped))
        = [(7, 1, some 12, [some "Orange County, CA", some "California"])] :=
  ⟨(aggregation_conserves _ (by decide) (by decide)).2.1 _ (by decide),
    by decide⟩

/-- Counterexample for C7 as stated: a row with a missing state is filled
with the empty string, not with the country; consequently a missing-state
France row and a France row whose state is literally "France" stay in two
distinct aggregated rows instead of merging. -/
theorem fill_missing_state_cex :
    (mkGroupRow (stateResolution []) ⟨20200310, "a.csv", "France", none,
        none, some 1, some 0, some 0, none⟩).state = ""
      ∧ (mkGroupRow (stateResolution []) ⟨20200310, "a.csv", "France", none,
          none, some 1, some 0, some 0, none⟩).country = "France"
      ∧ "" ≠ "France"
      ∧ ((jhuClean [⟨20200310, "a.csv", "France", none, none, some 1,
            some 0, some 0, none⟩,
          ⟨20200310, "a.csv", "France", some "France", none, some 2,
            some 0, some 0, none⟩]).filter
          (fun r => decide (r.country = some "France"))).length = 2 := by
  decide

/-- C7 (amended): before grouping, a missing state and a missing county
are filled with the empty string (pipeline.py lines 344-346), not with
the broader geographic level; all missing-state rows of one (date,
country, filename) therefore share one group key and aggregate together
rather than forming spurious singleton groups. -/
theorem fill_missing_empty (m : List (String × String)) (r1 r2 : JRow)
    (h1 : r1.state = none) (h2 : r2.state = none)
    (ha1 : r1.admin2 = none) (ha2 : r2.admin2 = none)
    (hd : r1.filedate = r2.filedate) (hc : r1.country = r2.country)
    (hf : r1.filename = r2.filename) :
    (mkGroupRow m r1).state = "" ∧ (mkGroupRow m r1).admin2 = ""
      ∧ gKey (mkGroupRow m r1) = gKey (mkGroupRow m r2) := by
  refine ⟨?_, ?_, ?_⟩
  · simp [mkGroupRow, h1, applyMapOpt]
  · simp [mkGroupRow, ha1]
  · simp [mkGroupRow, gKey, h1, h2, ha1, ha2, hd, hc, hf, applyMapOpt]

/-- Witness for C7 (amended): two missing-state France rows of the same
day share one group key. -/
theorem fill_missing_empty_witness :
    (mkGroupRow (stateResolution []) ⟨20200310, "a.csv", "France", none,
        none, some 1, some 0, some 0, none⟩).state = ""
      ∧ (mkGroupRow (stateResolution []) ⟨20200310, "a.csv", "France", none,
          none, some 1, some 0, some 0, none⟩).admin2 = ""
      ∧ gKey (mkGroupRow (stateResolution []) ⟨20200310, "a.csv", "France",
            none, none, some 1, some 0, some 0, none⟩)
          = gKey (mkGroupRow (stateResolution []) ⟨20200310, "a.csv",
            "France", none, none, some 5, some 2, some 0, none⟩) :=
  fill_missing_empty (stateResolution []) _ _ rfl rfl rfl rfl rfl rfl rfl

/-- C10: the country table maps "Congo (Brazzaville)", "Congo (Kinshasa)"
and "Republic of the Congo" — two distinct countries — to the single
canonical name "Congo" (the mapping is not injective across countries),
and after resolution and aggregation one same-day record of each of the
two Congos merges into a single aggregated row with the summed count. -/
theorem congo_labels_merge :
    lookupS "Congo (Brazzaville)" countryResolution = some "Congo"
      ∧ lookupS "Congo (Kinshasa)" countryResolution = some "Congo"
      ∧ lookupS "Republic of the Congo" countryResolution = some "Congo"
      ∧ "Congo (Brazzaville)" ≠ "Congo (Kinshasa)"
      ∧ ((jhuClean [⟨20200310, "03-10-2020.csv", "Congo (Brazzaville)",
            none, none, some 3, some 0, some 0, some 5⟩,
          ⟨20200310, "03-10-2020.csv", "Congo (Kinshasa)", none, none,
            some 4, some 0, some 0, some 6⟩]).filter
          (fun r => decide (r.country = some "Congo"))).map
          (fun r => (r.date, r.confirmed)) = [(20200310, 7)] := by
  decide

/-- Counterexample for C1 as stated: the cleaned series of each source is
not always monotone away from the patched dates.  JHU: `JHU.clean`
applies no monotonicity correction, so a feed whose reported cumulative
count regresses (France 10 then 8 on unpatched dates) yields a
regressing cleaned series.  ECDC: a negative raw daily count (a
correction in the feed) makes the cumulative sum decrease. -/
theorem clean_monotone_cex :
    jhuMonotoneB (jhuClean [⟨20200310, "03-10-2020.csv", "France", none,
        none, some 10, some 0, some 0, some 1⟩,
        ⟨20200311, "03-11-2020.csv", "France", none, none, some 8, some 0,
        some 0, some 2⟩]) = false
      ∧ ¬ monotoneSeries (ecdcCleanPlace [⟨1, 5, 0⟩, ⟨2, 10, 0⟩,
          ⟨3, -3, 0⟩]) := by
  constructor
  · decide
  · decide

end Covid
